import Mathlib

/-!
Verification of the rocket signal/slot library (rocket.hpp).

The development embeds the thread-unsafe connection engine:
intrusive doubly-linked connection nodes with head/tail sentinels,
connect / disconnect / block / unblock, and the emission walk of
signal::invoke, including self-modification of the list from inside a
running slot, abort scopes and per-slot error capture.

Nodes live in a heap (a list of nodes addressed by position); null
pointers are None.  A slot is modelled as a finite program of list
operations (the re-entrant calls a C++ slot can make back into the
signal) followed by either a returned value or a raised error.
-/

namespace Rocket

/-- One connection node of the intrusive list (detail::connection_base plus
the stored slot of functional_connection).  next/prev are the intrusive
pointers, blockCount mirrors block_count, slot is the index of the stored
callable. -/
structure Node where
  next : Option Nat
  prev : Option Nat
  blockCount : Nat
  slot : Nat
deriving DecidableEq

/-- Dereference a node pointer. -/
def getNode (heap : List Node) (i : Nat) : Option Node :=
  heap[i]?

/-- Store a node (no-op when the index is not allocated, which never happens
on the states reached from the API). -/
def setNode (heap : List Node) (i : Nat) (n : Node) : List Node :=
  heap.set i n

/-- Write the next-link of node i. -/
def setNext (heap : List Node) (i : Nat) (v : Option Nat) : List Node :=
  match getNode heap i with
  | none => heap
  | some n => setNode heap i { n with next := v }

/-- Write the prev-link of node i. -/
def setPrev (heap : List Node) (i : Nat) (v : Option Nat) : List Node :=
  match getNode heap i with
  | none => heap
  | some n => setNode heap i { n with prev := v }

/-- connection_base::is_connected: the prev-link is non-null. -/
def isConnectedNode (heap : List Node) (i : Nat) : Bool :=
  match getNode heap i with
  | none => false
  | some n => n.prev.isSome

/-- connection_base::is_blocked: block_count > 0. -/
def isBlockedNode (heap : List Node) (i : Nat) : Bool :=
  match getNode heap i with
  | none => false
  | some n => decide (n.blockCount > 0)

/-- connection_base::disconnect: when still connected, splice the node out
(next->prev = prev; prev->next = next) and null the own prev-link, keeping
next intact for in-progress iteration. -/
def disconnectNode (heap : List Node) (i : Nat) : List Node :=
  match getNode heap i with
  | none => heap
  | some n =>
    match n.prev with
    | none => heap
    | some p =>
      let h1 := match n.next with
        | none => heap
        | some nx => setPrev heap nx (some p)
      let h2 := setNext h1 p n.next
      setPrev h2 i none

/-- The modulus of the unsigned long block_count: the counter wraps at
ULONG_MAX.  The width is the reference platform's (LP64); every theorem
that depends on not wrapping states that as an explicit bound, so only the
existence of the wrap matters. -/
def ulongMod : Nat := 2 ^ 64

/-- connection_base::block: ++block_count on an unsigned long, which wraps
to zero at ULONG_MAX. -/
def blockNode (heap : List Node) (i : Nat) : List Node :=
  match getNode heap i with
  | none => heap
  | some n => setNode heap i { n with blockCount := (n.blockCount + 1) % ulongMod }

/-- connection_base::unblock: decrement block_count when positive. -/
def unblockNode (heap : List Node) (i : Nat) : List Node :=
  match getNode heap i with
  | none => heap
  | some n =>
    if n.blockCount > 0 then setNode heap i { n with blockCount := n.blockCount - 1 }
    else heap

/-- signal::make_link: allocate a fresh node and splice it in directly
before node l (link->prev = l->prev; link->next = l; link->prev->next =
link; link->next->prev = link).  Returns the new heap and the new id. -/
def makeLink (heap : List Node) (l : Nat) (slotId : Nat) : Option (List Node × Nat) :=
  match getNode heap l with
  | none => none
  | some ln =>
    match ln.prev with
    | none => none
    | some lp =>
      let newId := heap.length
      let link : Node := { next := some l, prev := some lp, blockCount := 0, slot := slotId }
      let h1 := heap ++ [link]
      let h2 := setNext h1 lp (some newId)
      let h3 := setPrev h2 l (some newId)
      some (h3, newId)

/-- The node allocated by make_link before splicing: next aimed at the
insertion target, prev at the target's predecessor. -/
def linkNode (t p s : Nat) : Node :=
  { next := some t, prev := some p, blockCount := 0, slot := s }

/-- signal::connect: insert before head->next when the connect_as_first_slot
flag is set, otherwise before the tail sentinel. -/
def connectNode (heap : List Node) (head tail : Nat) (slotId : Nat) (first : Bool) :
    Option (List Node × Nat) :=
  if first then
    match getNode heap head with
    | none => none
    | some hn =>
      match hn.next with
      | none => none
      | some t => makeLink heap t slotId
  else
    makeLink heap tail slotId

/-- The head sentinel allocated by signal::init: next aimed at the tail
sentinel, prev null. -/
def headSentinel (tailId : Nat) : Node :=
  { next := some tailId, prev := none, blockCount := 0, slot := 0 }

/-- The tail sentinel allocated by signal::init: prev aimed at the head
sentinel, next null. -/
def tailSentinel (headId : Nat) : Node :=
  { next := none, prev := some headId, blockCount := 0, slot := 0 }

/-- signal::init: allocate the head and tail sentinels with head->next =
tail and tail->prev = head. -/
def initSignal (heap : List Node) : List Node × Nat × Nat :=
  let headId := heap.length
  let tailId := heap.length + 1
  (heap ++ [headSentinel tailId, tailSentinel headId], headId, tailId)

/-- The per-thread dispatch context (detail::thread_local_data): the
currently executing connection and the emission-aborted flag. -/
structure Tls where
  curConn : Option Nat
  aborted : Bool
deriving DecidableEq

/-- The zero-initialized state of the thread_local data. -/
def initialTls : Tls := { curConn := none, aborted := false }

/-- One primitive re-entrant operation a running slot can perform against
the signal machinery. -/
inductive Action where
  | disc (i : Nat)
  | blockConn (i : Nat)
  | unblockConn (i : Nat)
  | connNew (slotId : Nat) (first : Bool)
  | abortEmit
  | nestedInvoke (arg : Int)
deriving DecidableEq

/-- A slot body: the re-entrant operations it performs, whether it finally
raises, and the value it returns from its argument otherwise. -/
structure SlotSpec where
  actions : List Action
  raises : Bool
  ret : Int → Int

/-- A record of the emission walk reaching one node: the heap at the moment
the node was reached, whether its slot was invoked, the value fed to the
collector (none when skipped or raised), and the heap after the slot
returned (equal to heapAtReach when skipped). -/
structure Event where
  nodeId : Nat
  heapAtReach : List Node
  invoked : Bool
  value : Option Int
  heapAfter : List Node
deriving DecidableEq

/-- Whether a finished nested emission would throw invocation_slot_error:
some invoked slot raised. -/
def anyRaised (evs : List Event) : Bool :=
  evs.any (fun e => e.invoked && e.value.isNone)

/-- Run a slot body: the sequence of re-entrant operations, threading the
heap and the thread-local data.  nestedWalk performs a recursive emission
walk (signal::invoke re-entered from inside a slot); its abort flag is
scoped exactly as detail::abort_scope does, and a nested
invocation_slot_error propagates out of the slot (the remaining operations
do not run and the slot counts as raised). -/
def applyActs (head tail : Nat)
    (nestedWalk : Int → List Node → Tls → Option Nat → Option (List Node × Tls × List Event)) :
    List Action → List Node → Tls → Option (List Node × Tls × Bool)
  | [], heap, th => some (heap, th, false)
  | Action.disc i :: rest, heap, th =>
    applyActs head tail nestedWalk rest (disconnectNode heap i) th
  | Action.blockConn i :: rest, heap, th =>
    applyActs head tail nestedWalk rest (blockNode heap i) th
  | Action.unblockConn i :: rest, heap, th =>
    applyActs head tail nestedWalk rest (unblockNode heap i) th
  | Action.connNew s first :: rest, heap, th =>
    match connectNode heap head tail s first with
    | none => none
    | some (h1, _) => applyActs head tail nestedWalk rest h1 th
  | Action.abortEmit :: rest, heap, th =>
    applyActs head tail nestedWalk rest heap { th with aborted := true }
  | Action.nestedInvoke arg :: rest, heap, th =>
    match getNode heap head with
    | none => none
    | some hn =>
      match nestedWalk arg heap { th with aborted := false } hn.next with
      | none => none
      | some (h1, th1, evs) =>
        let th2 : Tls := { th1 with aborted := th.aborted }
        if anyRaised evs then some (h1, th2, true)
        else applyActs head tail nestedWalk rest h1 th2

/-- The emission walk of signal::invoke: step from head->next to the tail
sentinel; invoke each node that is connected (prev non-null) and unblocked
(block_count zero) at the moment it is reached, publishing it as the
current connection for the duration of its slot and restoring afterwards;
record one Event per reached node; advance through the node's own
next-link (read after the slot ran); stop right after a slot whose return
leaves the thread-local aborted flag set.  The Nat is fuel; a run that does
not finish within it yields none. -/
def walkFn (env : List SlotSpec) (head tail : Nat) :
    Nat → Int → List Node → Tls → Option Nat → Option (List Node × Tls × List Event)
  | 0 => fun _ _ _ _ => none
  | fuel + 1 => fun arg heap th cur? =>
    match cur? with
    | none => none
    | some cur =>
      if cur = tail then some (heap, th, [])
      else
        match getNode heap cur with
        | none => none
        | some n =>
          if n.prev.isSome && n.blockCount == 0 then
            match env[n.slot]? with
            | none => none
            | some spec =>
              match applyActs head tail
                  (fun a2 h2 t2 c2 => walkFn env head tail fuel a2 h2 t2 c2)
                  spec.actions heap { th with curConn := some cur } with
              | none => none
              | some (heap2, th2, raised) =>
                let th3 : Tls := { th2 with curConn := th.curConn }
                let ev : Event := { nodeId := cur, heapAtReach := heap, invoked := true,
                                    value := if raised || spec.raises then none
                                             else some (spec.ret arg),
                                    heapAfter := heap2 }
                if th3.aborted then some (heap2, th3, [ev])
                else
                  match getNode heap2 cur with
                  | none => none
                  | some n2 =>
                    match walkFn env head tail fuel arg heap2 th3 n2.next with
                    | none => none
                    | some (heap3, th4, evs) => some (heap3, th4, ev :: evs)
          else
            let ev : Event := { nodeId := cur, heapAtReach := heap, invoked := false,
                                value := none, heapAfter := heap }
            match walkFn env head tail fuel arg heap th n.next with
            | none => none
            | some (heap3, th4, evs) => some (heap3, th4, ev :: evs)

/-- The outcome of one signal::invoke call: final heap, restored
thread-local data, the walk trace, whether the walk was cut short by
abort_emission, and whether invocation_slot_error is thrown. -/
structure InvokeResult where
  heap : List Node
  tls : Tls
  events : List Event
  abortedDuring : Bool
  error : Bool
deriving DecidableEq

/-- signal::invoke: save the thread-local aborted flag and clear it
(abort_scope), walk from head->next to the tail sentinel, restore the
flag, and flag invocation_slot_error when any invoked slot raised. -/
def invoke (env : List SlotSpec) (head tail : Nat) (fuel : Nat) (arg : Int)
    (heap : List Node) (th : Tls) : Option InvokeResult :=
  match getNode heap head with
  | none => none
  | some hn =>
    match walkFn env head tail fuel arg heap { th with aborted := false } hn.next with
    | none => none
    | some (h1, th1, evs) =>
      some { heap := h1, tls := { th1 with aborted := th.aborted }, events := evs,
             abortedDuring := th1.aborted, error := anyRaised evs }

/-- Ids of the nodes whose slots were actually invoked, in walk order. -/
def invokedIds (evs : List Event) : List Nat :=
  (evs.filter (fun e => e.invoked)).map (fun e => e.nodeId)

/-- Ids of every node the walk reached, in walk order. -/
def reachedIds (evs : List Event) : List Nat :=
  evs.map (fun e => e.nodeId)

/-- The values fed to the collector, in walk order. -/
def collectedValues (evs : List Event) : List Int :=
  evs.filterMap (fun e => e.value)

/-- The pointer the walk advances through after leaving a node: the node's
own next-link, read after its slot (if any) ran. -/
def nextOf (e : Event) : Option Nat :=
  (getNode e.heapAfter e.nodeId).bind (fun n => n.next)

/-- The walk trace follows the list: each reached node is where the cursor
pointed, and the cursor then advances through that node's next-link. -/
def chainedFrom : Option Nat → List Event → Bool
  | _, [] => true
  | c, e :: rest => (c == some e.nodeId) && chainedFrom (nextOf e) rest

/-- Where the cursor stands after the recorded trace. -/
def eventsEnd : Option Nat → List Event → Option Nat
  | c, [] => c
  | _, e :: rest => eventsEnd (nextOf e) rest

/-- The cursor the emission starts from: head->next. -/
def startCursor (heap : List Node) (head : Nat) : Option Nat :=
  (getNode heap head).bind (fun n => n.next)

/-- The minimum collector: keep the smallest value seen (value-initialized
current, has_value flag exactly as in the source). -/
def minimumCollect (vs : List Int) : Int :=
  (vs.foldl (fun st v => if st.2 = false ∨ v < st.1 then (v, true) else st)
    ((0 : Int), false)).1

/-- The range collector: append every value in emission order. -/
def rangeCollect (vs : List Int) : List Int :=
  vs.foldl (fun acc v => acc ++ [v]) []

/-- The default collector for non-void returns: last value wrapped in an
optional (last over optional of T, current default-constructed empty). -/
def lastOptCollect (vs : List Int) : Option Int :=
  vs.foldl (fun _ v => some v) none

/-- rocket::invocation_slot_error: a payload-free aggregate error; it does
not say which slot failed. -/
structure InvocationSlotError where
  mk ::
deriving DecidableEq

/-- What signal::invoke hands its caller: the thrown aggregate error when
any slot raised, otherwise the collector result folded from the values of
the successful calls. -/
def emitResult {α : Type} (r : InvokeResult) (fold : List Int → α) :
    Except InvocationSlotError α :=
  if r.error then Except.error InvocationSlotError.mk
  else Except.ok (fold (collectedValues r.events))

/-- The rocket::connection handle: a possibly-null reference to a node. -/
structure ConnHandle where
  base : Option Nat
deriving DecidableEq

/-- The default-constructed handle (base = nullptr). -/
def nullConn : ConnHandle := { base := none }

/-- connection::is_connected: false on a null handle. -/
def connIsConnected (heap : List Node) (c : ConnHandle) : Bool :=
  match c.base with
  | none => false
  | some i => isConnectedNode heap i

/-- connection::is_blocked: false on a null handle. -/
def connIsBlocked (heap : List Node) (c : ConnHandle) : Bool :=
  match c.base with
  | none => false
  | some i => isBlockedNode heap i

/-- connection::block: no-op on a null handle; the handle keeps its base. -/
def connBlock (heap : List Node) (c : ConnHandle) : List Node × ConnHandle :=
  match c.base with
  | none => (heap, c)
  | some i => (blockNode heap i, c)

/-- connection::unblock: no-op on a null handle; the handle keeps its base. -/
def connUnblock (heap : List Node) (c : ConnHandle) : List Node × ConnHandle :=
  match c.base with
  | none => (heap, c)
  | some i => (unblockNode heap i, c)

/-- connection::disconnect: no-op on a null handle; on a live one it
disconnects the node and releases the handle, leaving it null. -/
def connDisconnect (heap : List Node) (c : ConnHandle) : List Node × ConnHandle :=
  match c.base with
  | none => (heap, c)
  | some i => (disconnectNode heap i, { base := none })

/-- The connection move constructor: the source is left null. -/
def connMoveFrom (c : ConnHandle) : ConnHandle × ConnHandle :=
  ({ base := c.base }, { base := none })

/-- rocket::current_connection: wrap the thread-local current connection
pointer in a handle. -/
def currentConnection (th : Tls) : ConnHandle :=
  { base := th.curConn }

/-- The loop of signal::copy: walk the source list from head->next to the
source tail and re-link each node's slot before the new signal's tail. -/
def copyLoop (srcTail newTail : Nat) :
    Nat → List Node → Option Nat → Option (List Node)
  | 0 => fun _ _ => none
  | fuel + 1 => fun heap cur? =>
    match cur? with
    | none => none
    | some cur =>
      if cur = srcTail then some heap
      else
        match getNode heap cur with
        | none => none
        | some n =>
          match makeLink heap newTail n.slot with
          | none => none
          | some (h1, _) =>
            match getNode h1 cur with
            | none => none
            | some n2 => copyLoop srcTail newTail fuel h1 n2.next

/-- The signal copy constructor: init() fresh sentinels, then copy(s):
deep-copy every node of the source list into the new list.  Returns the
extended heap and the copy's head/tail ids. -/
def copySignal (heap : List Node) (srcHead srcTail : Nat) (fuel : Nat) :
    Option (List Node × Nat × Nat) :=
  let s := initSignal heap
  match getNode s.1 srcHead with
  | none => none
  | some hn =>
    match copyLoop srcTail s.2.2 fuel s.1 hn.next with
    | none => none
    | some h2 => some (h2, s.2.1, s.2.2)

/-- The slots stored along a list, from a cursor to the tail sentinel, in
list order. -/
def slotChain (heap : List Node) (tail : Nat) :
    Nat → Option Nat → Option (List Nat)
  | 0 => fun _ => none
  | fuel + 1 => fun cur? =>
    match cur? with
    | none => none
    | some cur =>
      if cur = tail then some []
      else
        match getNode heap cur with
        | none => none
        | some n => (slotChain heap tail fuel n.next).map (fun l => n.slot :: l)

/-- A fresh signal: heap containing just the two sentinels, head id 0,
tail id 1. -/
def sigBase : List Node := (initSignal []).1

/-- Connect a slot at the back of the two-sentinel signal heap (ids 0/1),
keeping only the heap. -/
def addBack (heap : List Node) (s : Nat) : List Node :=
  ((connectNode heap 0 1 s false).getD (heap, 0)).1

/-- Connect a slot at the front of the two-sentinel signal heap (ids 0/1),
keeping only the heap. -/
def addFront (heap : List Node) (s : Nat) : List Node :=
  ((connectNode heap 0 1 s true).getD (heap, 0)).1

/-- A slot with no re-entrant effects computing r from the argument. -/
def plainSlot (r : Int → Int) : SlotSpec :=
  { actions := [], raises := false, ret := r }

/-- A signal with three slots (indices 0,1,2) connected at the back, in
that order: the connection nodes get ids 2, 3 and 4. -/
def heap3slots : List Node := addBack (addBack (addBack sigBase 0) 1) 2

/-- A signal with two slots (indices 0,1) connected at the back, in that
order: the connection nodes get ids 2 and 3. -/
def heap2slots : List Node := addBack (addBack sigBase 0) 1

/-- A placeholder result used to destructure concrete invoke outcomes. -/
def dfltRes : InvokeResult :=
  { heap := [], tls := initialTls, events := [], abortedDuring := false, error := false }

/-- Slots for the walk-characterization sample: slot 1 disconnects node 4
from inside its own call. -/
def c1env : List SlotSpec :=
  [plainSlot (fun x => x),
   { actions := [Action.disc 4], raises := false, ret := fun x => x + 1 },
   plainSlot (fun x => x + 2)]

/-- The walk-characterization sample heap: three connected slots with the
first connection (node 2) blocked. -/
def c1heap : List Node := blockNode heap3slots 2

/-- The concrete outcome of emitting the walk-characterization sample. -/
def c1res : InvokeResult := (invoke c1env 0 1 20 7 c1heap initialTls).getD dfltRes

/-- Slots for the connect-during-emission sample: the only connected slot
appends a new listener (slot index 1) at the back of the list while the
emission is running. -/
def c2env (f g : Int → Int) : List SlotSpec :=
  [{ actions := [Action.connNew 1 false], raises := false, ret := f }, plainSlot g]

/-- The connect-during-emission sample heap: one connected slot (node 2). -/
def c2heap : List Node := addBack sigBase 0

/-- Slots whose middle listener (node 3) disconnects itself during its own
invocation. -/
def c4env (f g k : Int → Int) : List SlotSpec :=
  [plainSlot f,
   { actions := [Action.disc 3], raises := false, ret := g },
   plainSlot k]

/-- The outcome of the first emission of the self-disconnection sample. -/
def c4run (f g k : Int → Int) (x : Int) : InvokeResult :=
  (invoke (c4env f g k) 0 1 20 x heap3slots initialTls).getD dfltRes

/-- Slots whose middle listener (node 3) calls abort_emission during its
own invocation. -/
def c5env (f g k : Int → Int) : List SlotSpec :=
  [plainSlot f,
   { actions := [Action.abortEmit], raises := false, ret := g },
   plainSlot k]

/-- Slots for the nested-emission sample: node 3 blocks itself, runs a
nested emission of the same signal, unblocks itself and disconnects the
aborting node 4; node 4 calls abort_emission; nodes 2 and 5 are plain. -/
def c5envNested (f g d k : Int → Int) (y : Int) : List SlotSpec :=
  [plainSlot f,
   { actions := [Action.blockConn 3, Action.nestedInvoke y,
                 Action.unblockConn 3, Action.disc 4],
     raises := false, ret := g },
   { actions := [Action.abortEmit], raises := false, ret := d },
   plainSlot k]

/-- The nested-emission sample heap: four slots connected at the back, the
connection nodes get ids 2, 3, 4 and 5. -/
def c5heapNested : List Node := addBack (addBack (addBack (addBack sigBase 0) 1) 2) 3

/-- Slots whose middle listener raises during emission. -/
def c6env (f k : Int → Int) : List SlotSpec :=
  [plainSlot f,
   { actions := [], raises := true, ret := fun z => z },
   plainSlot k]

/-- The deep copy of the two-slot signal: fresh sentinels get ids 4 and 5
and the copied connection nodes get ids 6 and 7. -/
def c8copy : List Node := ((copySignal heap2slots 0 1 20).getD ([], 0, 0)).1

/-- The three example listeners of the collector sample: x*3, x*1 and x*2
connected in that order. -/
def c9env : List SlotSpec :=
  [plainSlot (fun x => x * 3), plainSlot (fun x => x * 1), plainSlot (fun x => x * 2)]

/-- The concrete outcome of emitting the collector sample with argument 5. -/
def c9res : InvokeResult := (invoke c9env 0 1 20 5 heap3slots initialTls).getD dfltRes

/-- The concrete outcome of emitting the abort sample with argument 5. -/
def c5res : InvokeResult :=
  (invoke (c5env (fun x => x) (fun z => z) (fun w => w)) 0 1 20 5 heap3slots initialTls).getD
    dfltRes

/-- The outcome of emitting the raising-middle-listener sample. -/
def c6res (f k : Int → Int) (x : Int) : InvokeResult :=
  (invoke (c6env f k) 0 1 20 x heap3slots initialTls).getD dfltRes

/-- The two-slot signal with its second connection (node 3) blocked. -/
def c7heapBlocked : List Node := blockNode heap2slots 3

/-- Characterization of the emission walk: every recorded event was invoked
exactly when its node was connected and unblocked in the heap at the moment
it was reached; the trace follows the cursor and the next-links; and unless
the walk was aborted it ran all the way to the tail sentinel. -/
theorem walkFn_events (env : List SlotSpec) (head tail : Nat) :
    ∀ fuel arg heap th cur? h1 th1 evs,
      walkFn env head tail fuel arg heap th cur? = some (h1, th1, evs) →
      ((∀ e ∈ evs, e.invoked = (isConnectedNode e.heapAtReach e.nodeId
          && !isBlockedNode e.heapAtReach e.nodeId))
        ∧ chainedFrom cur? evs = true
        ∧ (th1.aborted = false → eventsEnd cur? evs = some tail)) := by
  intro fuel
  induction fuel with
  | zero =>
    intro arg heap th cur? h1 th1 evs h
    simp [walkFn] at h
  | succ fuel ih =>
    intro arg heap th cur? h1 th1 evs h
    cases cur? with
    | none => simp [walkFn] at h
    | some cur =>
      simp only [walkFn] at h
      by_cases hct : cur = tail
      · rw [if_pos hct] at h
        obtain ⟨rfl, rfl, rfl⟩ : heap = h1 ∧ th = th1 ∧ [] = evs := by
          simpa using h
        refine ⟨by simp, rfl, fun _ => ?_⟩
        simp [eventsEnd, hct]
      · rw [if_neg hct] at h
        cases hn : getNode heap cur with
        | none => rw [hn] at h; simp at h
        | some n =>
          rw [hn] at h
          simp only [] at h
          by_cases hcond : (n.prev.isSome && n.blockCount == 0) = true
          · rw [if_pos hcond] at h
            obtain ⟨hp, hb⟩ : n.prev.isSome = true ∧ (n.blockCount == 0) = true := by
              simpa using hcond
            have hb0 : n.blockCount = 0 := by simpa using hb
            cases hs : env[n.slot]? with
            | none => rw [hs] at h; simp at h
            | some spec =>
              rw [hs] at h
              simp only [] at h
              cases ha : applyActs head tail
                  (fun a2 h2 t2 c2 => walkFn env head tail fuel a2 h2 t2 c2)
                  spec.actions heap { th with curConn := some cur } with
              | none => rw [ha] at h; simp at h
              | some out =>
                obtain ⟨heap2, th2, raised⟩ := out
                rw [ha] at h
                simp only [] at h
                by_cases hab : ({ th2 with curConn := th.curConn } : Tls).aborted = true
                · rw [if_pos hab] at h
                  obtain ⟨rfl, rfl, rfl⟩ :
                      heap2 = h1 ∧ ({ th2 with curConn := th.curConn } : Tls) = th1
                        ∧ _ = evs := by
                    simpa using h
                  refine ⟨?_, ?_, ?_⟩
                  · intro e he
                    simp only [List.mem_singleton] at he
                    subst he
                    simp [isConnectedNode, isBlockedNode, hn, hp, hb0]
                  · simp [chainedFrom]
                  · intro hf
                    rw [show ({ th2 with curConn := th.curConn } : Tls).aborted = true
                      from hab] at hf
                    cases hf
                · rw [if_neg hab] at h
                  cases hg2 : getNode heap2 cur with
                  | none => rw [hg2] at h; simp at h
                  | some n2 =>
                    rw [hg2] at h
                    simp only [] at h
                    cases hr : walkFn env head tail fuel arg heap2
                        { th2 with curConn := th.curConn } n2.next with
                    | none => rw [hr] at h; simp at h
                    | some out2 =>
                      obtain ⟨heap3, th4, evs2⟩ := out2
                      rw [hr] at h
                      simp only [] at h
                      obtain ⟨rfl, rfl, rfl⟩ : heap3 = h1 ∧ th4 = th1 ∧ _ = evs := by
                        simpa using h
                      obtain ⟨ihinv, ihchain, ihend⟩ := ih _ _ _ _ _ _ _ hr
                      refine ⟨?_, ?_, ?_⟩
                      · intro e he
                        rcases List.mem_cons.mp he with rfl | he2
                        · simp [isConnectedNode, isBlockedNode, hn, hp, hb0]
                        · exact ihinv e he2
                      · simp only [chainedFrom, nextOf, getNode]
                        simp only [getNode] at hg2
                        simp [hg2, ihchain]
                      · intro hf
                        simp only [eventsEnd, nextOf, getNode]
                        simp only [getNode] at hg2
                        simp only [hg2, Option.bind_some]
                        exact ihend hf
          · rw [if_neg hcond] at h
            cases hr : walkFn env head tail fuel arg heap th n.next with
            | none => rw [hr] at h; simp at h
            | some out2 =>
              obtain ⟨heap3, th4, evs2⟩ := out2
              rw [hr] at h
              simp only [] at h
              obtain ⟨rfl, rfl, rfl⟩ : heap3 = h1 ∧ th4 = th1 ∧ _ = evs := by
                simpa using h
              obtain ⟨ihinv, ihchain, ihend⟩ := ih _ _ _ _ _ _ _ hr
              have hcondf : (n.prev.isSome && n.blockCount == 0) = false :=
                Bool.not_eq_true _ ▸ Bool.of_not_eq_true hcond
              refine ⟨?_, ?_, ?_⟩
              · intro e he
                rcases List.mem_cons.mp he with rfl | he2
                · simp only [isConnectedNode, isBlockedNode, hn]
                  cases hpv : n.prev.isSome with
                  | false => simp [hpv]
                  | true =>
                    cases hbv : n.blockCount == 0 with
                    | false =>
                      have : n.blockCount ≠ 0 := by
                        intro h0; rw [h0] at hbv; simp at hbv
                      have : 0 < n.blockCount := Nat.pos_of_ne_zero this
                      simp [this]
                    | true => rw [hpv, hbv] at hcondf; simp at hcondf
                · exact ihinv e he2
              · simp only [chainedFrom, nextOf, getNode]
                simp only [getNode] at hn
                simp [hn, ihchain]
              · intro hf
                simp only [eventsEnd, nextOf, getNode]
                simp only [getNode] at hn
                simp only [hn, Option.bind_some]
                exact ihend hf

/-- The walk restores the published current connection: each slot runs
inside a connection_scope that restores the previous value, so after the
walk the thread-local current connection is what it was before. -/
theorem walkFn_curConn (env : List SlotSpec) (head tail : Nat) :
    ∀ fuel arg heap th cur? h1 th1 evs,
      walkFn env head tail fuel arg heap th cur? = some (h1, th1, evs) →
      th1.curConn = th.curConn := by
  intro fuel
  induction fuel with
  | zero =>
    intro arg heap th cur? h1 th1 evs h
    simp [walkFn] at h
  | succ fuel ih =>
    intro arg heap th cur? h1 th1 evs h
    cases cur? with
    | none => simp [walkFn] at h
    | some cur =>
      simp only [walkFn] at h
      by_cases hct : cur = tail
      · rw [if_pos hct] at h
        obtain ⟨-, rfl, -⟩ : heap = h1 ∧ th = th1 ∧ [] = evs := by simpa using h
        rfl
      · rw [if_neg hct] at h
        cases hn : getNode heap cur with
        | none => rw [hn] at h; simp at h
        | some n =>
          rw [hn] at h
          simp only [] at h
          by_cases hcond : (n.prev.isSome && n.blockCount == 0) = true
          · rw [if_pos hcond] at h
            cases hs : env[n.slot]? with
            | none => rw [hs] at h; simp at h
            | some spec =>
              rw [hs] at h
              simp only [] at h
              cases ha : applyActs head tail
                  (fun a2 h2 t2 c2 => walkFn env head tail fuel a2 h2 t2 c2)
                  spec.actions heap { th with curConn := some cur } with
              | none => rw [ha] at h; simp at h
              | some out =>
                obtain ⟨heap2, th2, raised⟩ := out
                rw [ha] at h
                simp only [] at h
                by_cases hab : ({ th2 with curConn := th.curConn } : Tls).aborted = true
                · rw [if_pos hab] at h
                  obtain ⟨-, rfl, -⟩ :
                      heap2 = h1 ∧ ({ th2 with curConn := th.curConn } : Tls) = th1
                        ∧ _ = evs := by simpa using h
                  rfl
                · rw [if_neg hab] at h
                  cases hg2 : getNode heap2 cur with
                  | none => rw [hg2] at h; simp at h
                  | some n2 =>
                    rw [hg2] at h
                    simp only [] at h
                    cases hr : walkFn env head tail fuel arg heap2
                        { th2 with curConn := th.curConn } n2.next with
                    | none => rw [hr] at h; simp at h
                    | some out2 =>
                      obtain ⟨heap3, th4, evs2⟩ := out2
                      rw [hr] at h
                      simp only [] at h
                      obtain ⟨-, rfl, -⟩ : heap3 = h1 ∧ th4 = th1 ∧ _ = evs := by
                        simpa using h
                      have h5 := ih _ _ _ _ _ _ _ hr
                      simpa using h5
          · rw [if_neg hcond] at h
            cases hr : walkFn env head tail fuel arg heap th n.next with
            | none => rw [hr] at h; simp at h
            | some out2 =>
              obtain ⟨heap3, th4, evs2⟩ := out2
              rw [hr] at h
              simp only [] at h
              obtain ⟨-, rfl, -⟩ : heap3 = h1 ∧ th4 = th1 ∧ _ = evs := by
                simpa using h
              exact ih _ _ _ _ _ _ _ hr

theorem length_setNode (heap : List Node) (i : Nat) (n : Node) :
    (setNode heap i n).length = heap.length :=
  List.length_set heap i n

theorem length_setNext (heap : List Node) (i : Nat) (v : Option Nat) :
    (setNext heap i v).length = heap.length := by
  unfold setNext
  cases getNode heap i <;> simp [length_setNode]

theorem length_setPrev (heap : List Node) (i : Nat) (v : Option Nat) :
    (setPrev heap i v).length = heap.length := by
  unfold setPrev
  cases getNode heap i <;> simp [length_setNode]

theorem getNode_lt_length {heap : List Node} {i : Nat} {n : Node}
    (h : getNode heap i = some n) : i < heap.length := by
  unfold getNode at h
  exact (List.getElem?_eq_some.mp h).1

theorem getNode_of_lt {heap : List Node} {i : Nat} (h : i < heap.length) :
    ∃ n, getNode heap i = some n := by
  unfold getNode
  exact ⟨heap[i], List.getElem?_eq_some.mpr ⟨h, rfl⟩⟩

theorem getNode_setNode_self {heap : List Node} {i : Nat} (n : Node)
    (h : i < heap.length) : getNode (setNode heap i n) i = some n := by
  unfold getNode setNode
  exact List.getElem?_set_self h

theorem getNode_setNode_ne {heap : List Node} {i j : Nat} (n : Node)
    (h : i ≠ j) : getNode (setNode heap i n) j = getNode heap j := by
  unfold getNode setNode
  exact List.getElem?_set_ne h

theorem getNode_setNext_self {heap : List Node} {i : Nat} {n : Node} (v : Option Nat)
    (h : getNode heap i = some n) :
    getNode (setNext heap i v) i = some { n with next := v } := by
  unfold setNext
  rw [h]
  exact getNode_setNode_self _ (getNode_lt_length h)

theorem getNode_setPrev_self {heap : List Node} {i : Nat} {n : Node} (v : Option Nat)
    (h : getNode heap i = some n) :
    getNode (setPrev heap i v) i = some { n with prev := v } := by
  unfold setPrev
  rw [h]
  exact getNode_setNode_self _ (getNode_lt_length h)

theorem getNode_setNext_ne {heap : List Node} {i j : Nat} (v : Option Nat)
    (h : i ≠ j) : getNode (setNext heap i v) j = getNode heap j := by
  unfold setNext
  cases getNode heap i with
  | none => rfl
  | some n => exact getNode_setNode_ne _ h

theorem getNode_setPrev_ne {heap : List Node} {i j : Nat} (v : Option Nat)
    (h : i ≠ j) : getNode (setPrev heap i v) j = getNode heap j := by
  unfold setPrev
  cases getNode heap i with
  | none => rfl
  | some n => exact getNode_setNode_ne _ h

theorem getNode_append_lt {heap l : List Node} {i : Nat} (h : i < heap.length) :
    getNode (heap ++ l) i = getNode heap i := by
  unfold getNode
  rw [List.getElem?_append, if_pos h]

theorem setNode_self {heap : List Node} {i : Nat} {n : Node}
    (h : getNode heap i = some n) : setNode heap i n = heap := by
  unfold getNode at h
  unfold setNode
  ext1 j
  by_cases hij : i = j
  · subst hij
    rw [List.getElem?_set_self (List.getElem?_eq_some.mp h).1]
    exact h.symm
  · rw [List.getElem?_set_ne hij]

/-- C1: for every sequence of connect/disconnect/block operations and every
call to signal invocation, the emission walk invokes exactly those
connections that are connected (prev-link non-null) and unblocked (block
count zero) at the moment the walk reaches them, it proceeds in list order
from the node after the head sentinel (following the next-links, reaching
the tail sentinel unless aborted), and it invokes no connection that was
disconnected strictly before the walk reached it. -/
theorem c1_emission_walk (env : List SlotSpec) (head tail fuel : Nat) (arg : Int)
    (heap : List Node) (th : Tls) (r : InvokeResult)
    (h : invoke env head tail fuel arg heap th = some r) :
    (∀ e ∈ r.events, e.invoked = (isConnectedNode e.heapAtReach e.nodeId
        && !isBlockedNode e.heapAtReach e.nodeId))
    ∧ chainedFrom (startCursor heap head) r.events = true
    ∧ (r.abortedDuring = false →
        eventsEnd (startCursor heap head) r.events = some tail)
    ∧ (∀ e ∈ r.events, isConnectedNode e.heapAtReach e.nodeId = false →
        e.invoked = false) := by
  unfold invoke at h
  cases hh : getNode heap head with
  | none => rw [hh] at h; simp at h
  | some hn =>
    rw [hh] at h
    simp only [] at h
    cases hw : walkFn env head tail fuel arg heap { th with aborted := false } hn.next with
    | none => rw [hw] at h; simp at h
    | some out =>
      obtain ⟨h1, th1, evs⟩ := out
      rw [hw] at h
      simp only [] at h
      obtain rfl : InvokeResult.mk h1 { th1 with aborted := th.aborted } evs
          th1.aborted (anyRaised evs) = r := by
        simpa using h
      obtain ⟨hi, hc, he⟩ :=
        walkFn_events env head tail fuel arg heap _ hn.next h1 th1 evs hw
      have hstart : startCursor heap head = hn.next := by
        simp [startCursor, hh]
      refine ⟨hi, ?_, ?_, ?_⟩
      · rw [hstart]; exact hc
      · intro hf
        rw [hstart]
        exact he hf
      · intro e hmem hdis
        have h2 := hi e hmem
        rw [hdis] at h2
        simpa using h2

/-- C1 witness: the characterization evaluated on a concrete emission with
a blocked first connection and a slot that disconnects its successor. -/
theorem c1_emission_walk_witness :
    invoke c1env 0 1 20 7 c1heap initialTls = some c1res
    ∧ ((∀ e ∈ c1res.events, e.invoked = (isConnectedNode e.heapAtReach e.nodeId
          && !isBlockedNode e.heapAtReach e.nodeId))
      ∧ chainedFrom (startCursor c1heap 0) c1res.events = true
      ∧ (c1res.abortedDuring = false →
          eventsEnd (startCursor c1heap 0) c1res.events = some 1)
      ∧ (∀ e ∈ c1res.events, isConnectedNode e.heapAtReach e.nodeId = false →
          e.invoked = false)) :=
  ⟨rfl, c1_emission_walk c1env 0 1 20 7 c1heap initialTls c1res rfl⟩

/-- C2 counterexample: the claim says a listener connected at the back by a
slot running during an emission is NOT invoked by that same emission.  On
the code it IS: starting from a signal whose heap has length 3 (two
sentinels and one connected slot), the running slot appends node 3 before
the tail sentinel, and the same emission walk then reaches and invokes
node 3. -/
theorem c2_counterexample :
    c2heap.length = 3
    ∧ (invoke (c2env (fun x => x) (fun x => x + 100)) 0 1 20 5 c2heap initialTls).map
        (fun r => invokedIds r.events) = some [2, 3] :=
  ⟨rfl, rfl⟩

/-- C2 amended: a new listener connected at the back (appended before the
tail sentinel) by a slot running during an emission lands on the remaining
walk chain and IS invoked by that same emission (here: the fresh node 3 is
walked and its value collected right after the connecting slot's own). -/
theorem c2_back_insert_is_invoked (f g : Int → Int) (x : Int) :
    (invoke (c2env f g) 0 1 20 x c2heap initialTls).map
      (fun r => (invokedIds r.events, collectedValues r.events, r.heap.length))
      = some ([2, 3], [f x, g x], 4) :=
  rfl

/-- C3 counterexample: the claim says connections inserted at the same end
run in the order they were connected.  For two front-inserted connections
the code runs them in REVERSE connect order: node 2 was connected before
node 3 (both with connect_as_first_slot), yet emission invokes 3 first. -/
theorem c3_counterexample :
    (invoke [plainSlot (fun x => x + 1), plainSlot (fun x => x + 2)] 0 1 20 0
        (addFront (addFront sigBase 0) 1) initialTls).map
      (fun r => invokedIds r.events) = some [3, 2] :=
  rfl

/-- C9: with three listeners connected in order computing x*3, x*1 and x*2
and invoked with x=5, the minimum collector returns 5, the range collector
returns [15, 5, 10] in connect order, and the default collector (last
value in an optional) returns some 10. -/
theorem c9_example_collectors :
    invoke c9env 0 1 20 5 heap3slots initialTls = some c9res
    ∧ emitResult c9res minimumCollect = Except.ok 5
    ∧ emitResult c9res rangeCollect = Except.ok [15, 5, 10]
    ∧ emitResult c9res lastOptCollect = Except.ok (some 10)
    ∧ invokedIds c9res.events = [2, 3, 4] := by
  refine ⟨rfl, ?_, ?_, ?_, rfl⟩ <;> rfl

/-- C10: a null connection handle (default-constructed, moved-from, or
obtained from current_connection outside any slot execution) reports
is_connected and is_blocked false, and disconnect, block and unblock are
safe no-ops that leave the handle null; the thread-local current
connection starts null and is restored by every emission. -/
theorem c10_null_connection :
    (∀ heap c, c.base = none →
        connIsConnected heap c = false
        ∧ connIsBlocked heap c = false
        ∧ connDisconnect heap c = (heap, c)
        ∧ connBlock heap c = (heap, c)
        ∧ connUnblock heap c = (heap, c))
    ∧ nullConn.base = none
    ∧ (∀ c, (connMoveFrom c).2.base = none)
    ∧ (currentConnection initialTls).base = none
    ∧ (∀ env head tail fuel arg heap th r,
        invoke env head tail fuel arg heap th = some r →
        (currentConnection r.tls).base = (currentConnection th).base) := by
  refine ⟨?_, rfl, fun c => rfl, rfl, ?_⟩
  · intro heap c hc
    cases c with
    | mk b =>
      simp only at hc
      subst hc
      exact ⟨rfl, rfl, rfl, rfl, rfl⟩
  · intro env head tail fuel arg heap th r h
    unfold invoke at h
    cases hh : getNode heap head with
    | none => rw [hh] at h; simp at h
    | some hn =>
      rw [hh] at h
      simp only [] at h
      cases hw : walkFn env head tail fuel arg heap { th with aborted := false } hn.next with
      | none => rw [hw] at h; simp at h
      | some out =>
        obtain ⟨h1, th1, evs⟩ := out
        rw [hw] at h
        simp only [] at h
        obtain rfl : InvokeResult.mk h1 { th1 with aborted := th.aborted } evs
            th1.aborted (anyRaised evs) = r := by
          simpa using h
        have h2 := walkFn_curConn env head tail fuel arg heap _ hn.next h1 th1 evs hw
        simpa [currentConnection] using h2

/-- C10 witness: the null-handle operations evaluated on the empty heap and
the current-connection restoration evaluated on a concrete emission. -/
theorem c10_null_connection_witness :
    nullConn.base = none
    ∧ connIsConnected [] nullConn = false
    ∧ connDisconnect [] nullConn = ([], nullConn)
    ∧ invoke c1env 0 1 20 7 c1heap initialTls = some c1res
    ∧ (currentConnection c1res.tls).base = (currentConnection initialTls).base :=
  ⟨rfl, (c10_null_connection.1 [] nullConn rfl).1,
   (c10_null_connection.1 [] nullConn rfl).2.2.1, rfl,
   c10_null_connection.2.2.2.2 c1env 0 1 20 7 c1heap initialTls c1res rfl⟩

theorem disconnectNode_of_missing {heap : List Node} {i : Nat}
    (hg : getNode heap i = none) : disconnectNode heap i = heap := by
  unfold disconnectNode
  rw [hg]

theorem disconnectNode_of_prev_none {heap : List Node} {i : Nat} {n : Node}
    (hg : getNode heap i = some n) (hp : n.prev = none) :
    disconnectNode heap i = heap := by
  unfold disconnectNode
  rw [hg]
  simp only []
  rw [hp]

theorem disconnectNode_setPrev_none {h2 : List Node} {i : Nat}
    (hl : i < h2.length) :
    disconnectNode (setPrev h2 i none) i = setPrev h2 i none := by
  obtain ⟨u, hu⟩ := getNode_of_lt hl
  have h3 := getNode_setPrev_self none hu
  unfold disconnectNode
  rw [h3]

theorem setNode_setNode (heap : List Node) (i : Nat) (a b : Node) :
    setNode (setNode heap i a) i b = setNode heap i b :=
  List.set_set a b heap i

/-- C4: a listener that disconnects its own connection during its own
invocation is invoked exactly once in the current emission and never in a
future emission of the signal; the walk still advances to and invokes the
listener's immediate successor (its next-link is preserved while its
prev-link is nulled, so the disconnected node is not even reached by later
emissions); and repeating disconnect on an already-disconnected node is a
safe no-op. -/
theorem c4_self_disconnect :
    (∀ f g k : Int → Int, ∀ x : Int,
        invokedIds (c4run f g k x).events = [2, 3, 4]
        ∧ collectedValues (c4run f g k x).events = [f x, g x, k x]
        ∧ isConnectedNode (c4run f g k x).heap 3 = false
        ∧ (invoke (c4env f g k) 0 1 20 x (c4run f g k x).heap initialTls).map
            (fun r => reachedIds r.events) = some [2, 4])
    ∧ (∀ heap i, disconnectNode (disconnectNode heap i) i = disconnectNode heap i) := by
  constructor
  · intro f g k x
    exact ⟨rfl, rfl, rfl, rfl⟩
  · intro heap i
    cases hg : getNode heap i with
    | none =>
      have e1 := disconnectNode_of_missing hg
      rw [e1]
      exact e1
    | some n =>
      cases hp : n.prev with
      | none =>
        have e1 := disconnectNode_of_prev_none hg hp
        rw [e1]
        exact e1
      | some p =>
        have hlt : i < heap.length := getNode_lt_length hg
        cases hnx : n.next with
        | none =>
          have e1 : disconnectNode heap i = setPrev (setNext heap p n.next) i none := by
            unfold disconnectNode
            rw [hg]
            simp only []
            rw [hp]
            simp only []
            rw [hnx]
          rw [e1]
          exact disconnectNode_setPrev_none (by rw [length_setNext]; exact hlt)
        | some nx =>
          have e1 : disconnectNode heap i
              = setPrev (setNext (setPrev heap nx (some p)) p n.next) i none := by
            unfold disconnectNode
            rw [hg]
            simp only []
            rw [hp]
            simp only []
            rw [hnx]
          rw [e1]
          exact disconnectNode_setPrev_none
            (by rw [length_setNext, length_setPrev]; exact hlt)

/-- C4 witness: the self-disconnection emission evaluated at concrete
slots, and disconnect idempotence evaluated on the sample heap. -/
theorem c4_self_disconnect_witness :
    invokedIds (c4run (fun x => x) (fun z => z) (fun w => w) 9).events = [2, 3, 4]
    ∧ disconnectNode (disconnectNode heap3slots 3) 3 = disconnectNode heap3slots 3 :=
  ⟨(c4_self_disconnect.1 (fun x => x) (fun z => z) (fun w => w) 9).1,
   c4_self_disconnect.2 heap3slots 3⟩

/-- C5: a listener that calls abort_emission during its own invocation
stops the walk right after itself (no later-positioned connection is even
reached in that emission); the per-thread abort flag is saved on entry and
restored on exit of every emission, so an abort raised inside a nested
recursive emission does not abort the enclosing emission. -/
theorem c5_abort_emission :
    (∀ f g k : Int → Int, ∀ x : Int,
        (invoke (c5env f g k) 0 1 20 x heap3slots initialTls).map
          (fun r => (reachedIds r.events, invokedIds r.events,
                     r.abortedDuring, r.tls.aborted))
          = some ([2, 3], [2, 3], true, false))
    ∧ (∀ env head tail fuel arg heap th r,
        invoke env head tail fuel arg heap th = some r → r.tls.aborted = th.aborted)
    ∧ (∀ f g d k : Int → Int, ∀ x y : Int,
        (invoke (c5envNested f g d k y) 0 1 40 x c5heapNested initialTls).map
          (fun r => invokedIds r.events) = some [2, 3, 5])
    ∧ (∀ f g d k : Int → Int, ∀ y : Int,
        (invoke (c5envNested f g d k y) 0 1 40 y (blockNode c5heapNested 3) initialTls).map
          (fun r => (invokedIds r.events, r.abortedDuring)) = some ([2, 4], true)) := by
  refine ⟨fun f g k x => rfl, ?_, fun f g d k x y => rfl, fun f g d k y => rfl⟩
  intro env head tail fuel arg heap th r h
  unfold invoke at h
  cases hh : getNode heap head with
  | none => rw [hh] at h; simp at h
  | some hn =>
    rw [hh] at h
    simp only [] at h
    cases hw : walkFn env head tail fuel arg heap { th with aborted := false } hn.next with
    | none => rw [hw] at h; simp at h
    | some out =>
      obtain ⟨h1, th1, evs⟩ := out
      rw [hw] at h
      simp only [] at h
      obtain rfl : InvokeResult.mk h1 { th1 with aborted := th.aborted } evs
          th1.aborted (anyRaised evs) = r := by
        simpa using h
      rfl

/-- C5 witness: the abort scenario and the flag restoration evaluated on a
concrete emission. -/
theorem c5_abort_emission_witness :
    invoke (c5env (fun x => x) (fun z => z) (fun w => w)) 0 1 20 5 heap3slots initialTls
      = some c5res
    ∧ c5res.tls.aborted = initialTls.aborted :=
  ⟨rfl, c5_abort_emission.2.1 (c5env (fun x => x) (fun z => z) (fun w => w))
    0 1 20 5 heap3slots initialTls c5res rfl⟩

/-- C6: a slot error is caught inside the walk so that every remaining
listener still runs (the walk still ends at the tail sentinel unless
aborted); after the walk the emission surfaces a single aggregate
invocation_slot_error carrying no information about which listener failed
(the error type has a single value); an emission in which no slot raises
returns the collector result without error. -/
theorem c6_error_aggregation :
    (∀ env head tail fuel arg heap th r,
        invoke env head tail fuel arg heap th = some r →
        (r.error = true ↔ ∃ e ∈ r.events, e.invoked = true ∧ e.value = none))
    ∧ (∀ env head tail fuel arg heap th r,
        invoke env head tail fuel arg heap th = some r → r.abortedDuring = false →
        eventsEnd (startCursor heap head) r.events = some tail)
    ∧ (∀ (α : Type) (fold : List Int → α) (r : InvokeResult), r.error = false →
        emitResult r fold = Except.ok (fold (collectedValues r.events)))
    ∧ (∀ e1 e2 : InvocationSlotError, e1 = e2)
    ∧ (∀ f k : Int → Int, ∀ x : Int,
        invokedIds (c6res f k x).events = [2, 3, 4]
        ∧ collectedValues (c6res f k x).events = [f x, k x]
        ∧ emitResult (c6res f k x) rangeCollect = Except.error InvocationSlotError.mk
        ∧ (invoke [plainSlot f, plainSlot k] 0 1 20 x heap2slots initialTls).map
            (fun r => emitResult r rangeCollect) = some (Except.ok [f x, k x])) := by
  refine ⟨?_, ?_, ?_, ?_, ?_⟩
  · intro env head tail fuel arg heap th r h
    unfold invoke at h
    cases hh : getNode heap head with
    | none => rw [hh] at h; simp at h
    | some hn =>
      rw [hh] at h
      simp only [] at h
      cases hw : walkFn env head tail fuel arg heap { th with aborted := false } hn.next with
      | none => rw [hw] at h; simp at h
      | some out =>
        obtain ⟨h1, th1, evs⟩ := out
        rw [hw] at h
        simp only [] at h
        obtain rfl : InvokeResult.mk h1 { th1 with aborted := th.aborted } evs
            th1.aborted (anyRaised evs) = r := by
          simpa using h
        simp [anyRaised, List.any_eq_true, Option.isNone_iff_eq_none]
  · intro env head tail fuel arg heap th r h habort
    unfold invoke at h
    cases hh : getNode heap head with
    | none => rw [hh] at h; simp at h
    | some hn =>
      rw [hh] at h
      simp only [] at h
      cases hw : walkFn env head tail fuel arg heap { th with aborted := false } hn.next with
      | none => rw [hw] at h; simp at h
      | some out =>
        obtain ⟨h1, th1, evs⟩ := out
        rw [hw] at h
        simp only [] at h
        obtain rfl : InvokeResult.mk h1 { th1 with aborted := th.aborted } evs
            th1.aborted (anyRaised evs) = r := by
          simpa using h
        obtain ⟨-, -, hend⟩ :=
          walkFn_events env head tail fuel arg heap _ hn.next h1 th1 evs hw
        have hstart : startCursor heap head = hn.next := by
          simp [startCursor, hh]
        rw [hstart]
        exact hend habort
  · intro α fold r herr
    unfold emitResult
    rw [herr]
    simp
  · intro e1 e2
    cases e1
    cases e2
    rfl
  · intro f k x
    exact ⟨rfl, rfl, rfl, rfl⟩

/-- C6 witness: the error characterization and the ok-path evaluated on
concrete emissions. -/
theorem c6_error_aggregation_witness :
    invoke (c6env (fun x => x) (fun w => w)) 0 1 20 0 heap3slots initialTls
      = some (c6res (fun x => x) (fun w => w) 0)
    ∧ ((c6res (fun x => x) (fun w => w) 0).error = true
        ↔ ∃ e ∈ (c6res (fun x => x) (fun w => w) 0).events,
            e.invoked = true ∧ e.value = none)
    ∧ emitResult c9res rangeCollect = Except.ok (rangeCollect (collectedValues c9res.events)) :=
  ⟨rfl,
   c6_error_aggregation.1 (c6env (fun x => x) (fun w => w)) 0 1 20 0 heap3slots
     initialTls (c6res (fun x => x) (fun w => w) 0) rfl,
   c6_error_aggregation.2.2.1 (List Int) rangeCollect c9res rfl⟩

theorem getNode_blockNode_self {heap : List Node} {i : Nat} {n : Node}
    (hg : getNode heap i = some n) :
    getNode (blockNode heap i) i
      = some { n with blockCount := (n.blockCount + 1) % ulongMod } := by
  unfold blockNode
  rw [hg]
  exact getNode_setNode_self _ (getNode_lt_length hg)

/-- At block_count = ULONG_MAX the program's ++block_count wraps to zero,
so block() leaves is_blocked() false; the model reproduces this. -/
theorem blockNode_wraps_at_max {heap : List Node} {i : Nat} {n : Node}
    (hg : getNode heap i = some n) (hmax : n.blockCount = ulongMod - 1) :
    isBlockedNode (blockNode heap i) i = false := by
  have hset := getNode_blockNode_self hg
  unfold isBlockedNode
  rw [hset]
  simp only [hmax]
  have hz : (ulongMod - 1 + 1) % ulongMod = 0 := by
    have h1 : ulongMod - 1 + 1 = ulongMod := Nat.sub_add_cancel (by decide)
    rw [h1, Nat.mod_self]
  rw [hz]
  simp

/-- C7: block and unblock maintain a non-negative counter (unblock on a
zero counter is a no-op, and as long as the unsigned counter does not wrap
at ULONG_MAX, block makes the connection blocked without touching its
connected state and unblock after block restores the heap exactly); while
the counter is positive the connection is skipped by emission yet
is_connected still reports true; and a connection blocked during one
emission and unblocked before the next is skipped only while blocked. -/
theorem c7_block_unblock :
    (∀ heap i n, getNode heap i = some n →
        isConnectedNode (blockNode heap i) i = isConnectedNode heap i)
    ∧ (∀ heap i n, getNode heap i = some n → n.blockCount + 1 < ulongMod →
        isBlockedNode (blockNode heap i) i = true
        ∧ unblockNode (blockNode heap i) i = heap)
    ∧ (∀ heap i n, getNode heap i = some n → n.blockCount = 0 →
        unblockNode heap i = heap)
    ∧ isConnectedNode c7heapBlocked 3 = true
    ∧ isBlockedNode c7heapBlocked 3 = true
    ∧ (∀ f g : Int → Int, ∀ x : Int,
        (invoke [plainSlot f, plainSlot g] 0 1 20 x c7heapBlocked initialTls).map
          (fun r => (invokedIds r.events, reachedIds r.events)) = some ([2], [2, 3])
        ∧ (invoke [plainSlot f, plainSlot g] 0 1 20 x
              (unblockNode c7heapBlocked 3) initialTls).map
            (fun r => (invokedIds r.events, collectedValues r.events))
            = some ([2, 3], [f x, g x])) := by
  refine ⟨?_, ?_, ?_, rfl, rfl, fun f g x => ⟨rfl, rfl⟩⟩
  · intro heap i n hg
    have hset := getNode_blockNode_self hg
    unfold isConnectedNode
    rw [hset, hg]
  · intro heap i n hg hlt2
    have hlt : i < heap.length := getNode_lt_length hg
    have hmod : (n.blockCount + 1) % ulongMod = n.blockCount + 1 :=
      Nat.mod_eq_of_lt hlt2
    have hset : getNode (blockNode heap i) i
        = some { n with blockCount := n.blockCount + 1 } := by
      rw [getNode_blockNode_self hg, hmod]
    constructor
    · unfold isBlockedNode
      rw [hset]
      simp
    · unfold unblockNode
      rw [hset]
      simp only []
      rw [if_pos (Nat.succ_pos _)]
      unfold blockNode
      rw [hg]
      simp only []
      rw [hmod, setNode_setNode]
      simp only [Nat.add_sub_cancel]
      exact setNode_self hg
  · intro heap i n hg hb0
    unfold unblockNode
    rw [hg]
    simp only []
    rw [if_neg (by rw [hb0]; exact Nat.lt_irrefl 0)]

/-- C7 witness: the block/unblock laws evaluated on the two-slot signal,
whose counter (zero) is far below the wrap bound. -/
theorem c7_block_unblock_witness :
    getNode heap2slots 3 = some { next := some 1, prev := some 2, blockCount := 0, slot := 1 }
    ∧ (0 : Nat) + 1 < ulongMod
    ∧ isBlockedNode (blockNode heap2slots 3) 3 = true
    ∧ unblockNode (blockNode heap2slots 3) 3 = heap2slots
    ∧ unblockNode heap2slots 3 = heap2slots
    ∧ isConnectedNode (blockNode heap2slots 3) 3 = isConnectedNode heap2slots 3 :=
  ⟨rfl, by decide,
   (c7_block_unblock.2.1 heap2slots 3
     { next := some 1, prev := some 2, blockCount := 0, slot := 1 } rfl (by decide)).1,
   (c7_block_unblock.2.1 heap2slots 3
     { next := some 1, prev := some 2, blockCount := 0, slot := 1 } rfl (by decide)).2,
   c7_block_unblock.2.2.1 heap2slots 3
     { next := some 1, prev := some 2, blockCount := 0, slot := 1 } rfl rfl,
   c7_block_unblock.1 heap2slots 3
     { next := some 1, prev := some 2, blockCount := 0, slot := 1 } rfl⟩

theorem getNode_append_self (heap : List Node) (x : Node) :
    getNode (heap ++ [x]) heap.length = some x := by
  unfold getNode
  simp

theorem connect_front_position
    (heap : List Node) (head tail s : Nat) (h' : List Node) (newId : Nat)
    (hn tn : Node) (t : Nat)
    (hh : getNode heap head = some hn) (hnx : hn.next = some t)
    (ht : getNode heap t = some tn) (htp : tn.prev = some head)
    (hc : connectNode heap head tail s true = some (h', newId)) :
    (getNode h' head).bind (fun n => n.next) = some newId
    ∧ (getNode h' newId).bind (fun n => n.prev) = some head := by
  unfold connectNode at hc
  rw [if_pos rfl, hh] at hc
  simp only [] at hc
  rw [hnx] at hc
  simp only [] at hc
  unfold makeLink at hc
  rw [ht] at hc
  simp only [] at hc
  rw [htp] at hc
  simp only [] at hc
  obtain ⟨rfl, rfl⟩ :
      setPrev (setNext (heap ++ [linkNode t head s]) head (some heap.length)) t
        (some heap.length) = h'
      ∧ heap.length = newId := by
    simpa [linkNode, Prod.ext_iff] using hc
  have hlh : head < heap.length := getNode_lt_length hh
  have hlt : t < heap.length := getNode_lt_length ht
  have hh1 : getNode (heap ++ [linkNode t head s]) head = some hn := by
    rw [getNode_append_lt hlh]
    exact hh
  have hh2 := getNode_setNext_self (some heap.length) hh1
  constructor
  · by_cases hth : t = head
    · subst hth
      rw [getNode_setPrev_self (some heap.length) hh2]
      simp
    · rw [getNode_setPrev_ne _ hth, hh2]
      simp
  · have hl1 : getNode (heap ++ [linkNode t head s]) heap.length
        = some (linkNode t head s) :=
      getNode_append_self heap _
    have hne_h : head ≠ heap.length := Nat.ne_of_lt hlh
    have hne_t : t ≠ heap.length := Nat.ne_of_lt hlt
    rw [getNode_setPrev_ne _ hne_t, getNode_setNext_ne _ hne_h, hl1]
    simp [linkNode]

theorem connect_back_position
    (heap : List Node) (head tail s : Nat) (h' : List Node) (newId : Nat)
    (tn : Node) (p : Nat)
    (ht : getNode heap tail = some tn) (htp : tn.prev = some p) (hp : p < heap.length)
    (hc : connectNode heap head tail s false = some (h', newId)) :
    (getNode h' tail).bind (fun n => n.prev) = some newId
    ∧ (getNode h' newId).bind (fun n => n.next) = some tail := by
  unfold connectNode at hc
  rw [if_neg (by simp)] at hc
  unfold makeLink at hc
  rw [ht] at hc
  simp only [] at hc
  rw [htp] at hc
  simp only [] at hc
  obtain ⟨rfl, rfl⟩ :
      setPrev (setNext (heap ++ [linkNode tail p s]) p (some heap.length)) tail
        (some heap.length) = h'
      ∧ heap.length = newId := by
    simpa [linkNode, Prod.ext_iff] using hc
  have hltl : tail < heap.length := getNode_lt_length ht
  have hlen2 : tail < (setNext (heap ++ [linkNode tail p s]) p
      (some heap.length)).length := by
    rw [length_setNext, List.length_append]
    exact Nat.lt_succ_of_lt hltl
  obtain ⟨u, hu⟩ := getNode_of_lt hlen2
  constructor
  · rw [getNode_setPrev_self (some heap.length) hu]
    simp
  · have hl1 : getNode (heap ++ [linkNode tail p s]) heap.length
        = some (linkNode tail p s) :=
      getNode_append_self heap _
    have hne_t : tail ≠ heap.length := Nat.ne_of_lt hltl
    have hne_p : p ≠ heap.length := Nat.ne_of_lt hp
    rw [getNode_setPrev_ne _ hne_t, getNode_setNext_ne _ hne_p, hl1]
    simp [linkNode]

/-- C3 amended: connect with the connect_as_first_slot flag inserts the new
node immediately after the head sentinel and connect without it inserts
immediately before the tail sentinel; during emission every front-inserted
connection runs before every back-inserted one and back-inserted
connections run in the order they were connected, but front-inserted
connections run in REVERSE connect order (each front insert lands directly
after the head sentinel, in front of the earlier ones). -/
theorem c3_insert_position_and_order :
    (∀ (heap : List Node) (head tail s : Nat) (h' : List Node) (newId : Nat)
        (hn tn : Node) (t : Nat),
        getNode heap head = some hn → hn.next = some t →
        getNode heap t = some tn → tn.prev = some head →
        connectNode heap head tail s true = some (h', newId) →
        (getNode h' head).bind (fun n => n.next) = some newId
        ∧ (getNode h' newId).bind (fun n => n.prev) = some head)
    ∧ (∀ (heap : List Node) (head tail s : Nat) (h' : List Node) (newId : Nat)
        (tn : Node) (p : Nat),
        getNode heap tail = some tn → tn.prev = some p → p < heap.length →
        connectNode heap head tail s false = some (h', newId) →
        (getNode h' tail).bind (fun n => n.prev) = some newId
        ∧ (getNode h' newId).bind (fun n => n.next) = some tail)
    ∧ (∀ f1 f2 g1 g2 : Int → Int, ∀ x : Int,
        (invoke [plainSlot f1, plainSlot f2, plainSlot g1, plainSlot g2] 0 1 20 x
            (addBack (addBack (addFront (addFront sigBase 0) 1) 2) 3) initialTls).map
          (fun r => (invokedIds r.events, collectedValues r.events))
          = some ([3, 2, 4, 5], [f2 x, f1 x, g1 x, g2 x])) :=
  ⟨connect_front_position, connect_back_position, fun f1 f2 g1 g2 x => rfl⟩

/-- C3 witness: the insertion positions evaluated on the fresh two-sentinel
signal for one front and one back connect. -/
theorem c3_insert_position_witness :
    ((getNode (addFront sigBase 0) 0).bind (fun n => n.next) = some 2
      ∧ (getNode (addFront sigBase 0) 2).bind (fun n => n.prev) = some 0)
    ∧ ((getNode (addBack sigBase 0) 1).bind (fun n => n.prev) = some 2
      ∧ (getNode (addBack sigBase 0) 2).bind (fun n => n.next) = some 1) :=
  ⟨c3_insert_position_and_order.1 sigBase 0 1 0 (addFront sigBase 0) 2
      { next := some 1, prev := none, blockCount := 0, slot := 0 }
      { next := none, prev := some 0, blockCount := 0, slot := 0 } 1
      rfl rfl rfl rfl rfl,
   c3_insert_position_and_order.2.1 sigBase 0 1 0 (addBack sigBase 0) 2
      { next := none, prev := some 0, blockCount := 0, slot := 0 } 0
      rfl rfl (by decide) rfl⟩

/-- The copy loop never touches heap entries below len0 as long as the new
tail sentinel and its prev-link stay at or above len0: every make_link it
performs mutates only the new tail, the new tail's predecessor and a fresh
node. -/
theorem copyLoop_preserve (srcTail newTail len0 : Nat) :
    ∀ fuel heap cur? h',
      copyLoop srcTail newTail fuel heap cur? = some h' →
      len0 ≤ newTail →
      newTail < heap.length →
      (∀ tn, getNode heap newTail = some tn →
        ∀ j, tn.prev = some j → len0 ≤ j ∧ j < heap.length) →
      ∀ i, i < len0 → getNode h' i = getNode heap i := by
  intro fuel
  induction fuel with
  | zero =>
    intro heap cur? h' h
    simp [copyLoop] at h
  | succ fuel ih =>
    intro heap cur? h' h hnt hntl hinv i hi
    cases cur? with
    | none => simp [copyLoop] at h
    | some cur =>
      simp only [copyLoop] at h
      by_cases hct : cur = srcTail
      · rw [if_pos hct] at h
        obtain rfl : heap = h' := by simpa using h
        rfl
      · rw [if_neg hct] at h
        cases hgc : getNode heap cur with
        | none => rw [hgc] at h; simp at h
        | some n =>
          rw [hgc] at h
          simp only [] at h
          cases hml : makeLink heap newTail n.slot with
          | none => rw [hml] at h; simp at h
          | some out =>
            obtain ⟨h1, nid⟩ := out
            rw [hml] at h
            simp only [] at h
            cases hg1 : getNode h1 cur with
            | none => rw [hg1] at h; simp at h
            | some n2 =>
              rw [hg1] at h
              simp only [] at h
              unfold makeLink at hml
              cases hgt : getNode heap newTail with
              | none => rw [hgt] at hml; simp at hml
              | some ln =>
                rw [hgt] at hml
                simp only [] at hml
                cases hlp : ln.prev with
                | none => rw [hlp] at hml; simp at hml
                | some lp =>
                  rw [hlp] at hml
                  simp only [] at hml
                  obtain ⟨rfl, -⟩ :
                      setPrev (setNext (heap ++ [linkNode newTail lp n.slot]) lp
                        (some heap.length)) newTail (some heap.length) = h1
                      ∧ heap.length = nid := by
                    simpa [linkNode, Prod.ext_iff] using hml
                  obtain ⟨hlp_lo, hlp_hi⟩ := hinv ln hgt lp hlp
                  have hlen0_le : len0 ≤ heap.length := Nat.le_of_lt
                    (Nat.lt_of_le_of_lt hnt hntl)
                  have hpres : ∀ j, j < len0 →
                      getNode (setPrev (setNext (heap ++ [linkNode newTail lp n.slot]) lp
                        (some heap.length)) newTail (some heap.length)) j
                      = getNode heap j := by
                    intro j hj
                    have hjnt : newTail ≠ j :=
                      fun he => absurd (he ▸ hnt) (Nat.not_le_of_lt hj)
                    have hjlp : lp ≠ j :=
                      fun he => absurd (he ▸ hlp_lo) (Nat.not_le_of_lt hj)
                    have hjlen : j < heap.length := Nat.lt_of_lt_of_le hj hlen0_le
                    rw [getNode_setPrev_ne _ hjnt, getNode_setNext_ne _ hjlp,
                        getNode_append_lt hjlen]
                  have hlen1 : newTail < (setNext (heap ++ [linkNode newTail lp n.slot]) lp
                      (some heap.length)).length := by
                    rw [length_setNext, List.length_append]
                    exact Nat.lt_succ_of_lt hntl
                  obtain ⟨u, hu⟩ := getNode_of_lt hlen1
                  have hnew : getNode (setPrev (setNext (heap ++ [linkNode newTail lp n.slot])
                      lp (some heap.length)) newTail (some heap.length)) newTail
                      = some { u with prev := some heap.length } :=
                    getNode_setPrev_self _ hu
                  have hlen_h1 : (setPrev (setNext (heap ++ [linkNode newTail lp n.slot]) lp
                      (some heap.length)) newTail (some heap.length)).length
                      = heap.length + 1 := by
                    rw [length_setPrev, length_setNext, List.length_append]
                    rfl
                  have hres := ih _ n2.next h' h hnt
                    (by rw [hlen_h1]; exact Nat.lt_succ_of_lt hntl)
                    (by
                      intro tn htn j hj
                      rw [hnew] at htn
                      obtain rfl : ({ u with prev := some heap.length } : Node) = tn := by
                        simpa using htn
                      simp only [] at hj
                      obtain rfl : heap.length = j := by simpa using hj
                      exact ⟨hlen0_le, by rw [hlen_h1]; exact Nat.lt_succ_self _⟩)
                    i hi
                  rw [hres]
                  exact hpres i hi

/-- C8: signal copy construction deep-copies the slots of the connected
connections into a fresh list with fresh sentinels and fresh nodes,
touching no pre-existing node (so no handle is transferred); after the
copy the two signals emit the same values, and disconnecting a connection
of the copy leaves every connection of the original connected (and vice
versa). -/
theorem c8_deep_copy :
    (∀ heap hs ts fuel h' nh nt,
        copySignal heap hs ts fuel = some (h', nh, nt) →
        nh = heap.length ∧ nt = heap.length + 1
        ∧ ∀ i, i < heap.length → getNode h' i = getNode heap i)
    ∧ copySignal heap2slots 0 1 20 = some (c8copy, 4, 5)
    ∧ slotChain c8copy 5 20 (startCursor c8copy 4) = some [0, 1]
    ∧ slotChain c8copy 1 20 (startCursor c8copy 0) = some [0, 1]
    ∧ (∀ f g : Int → Int, ∀ x : Int,
        (invoke [plainSlot f, plainSlot g] 4 5 20 x c8copy initialTls).map
          (fun r => collectedValues r.events) = some [f x, g x]
        ∧ (invoke [plainSlot f, plainSlot g] 0 1 20 x c8copy initialTls).map
          (fun r => collectedValues r.events) = some [f x, g x]
        ∧ (invoke [plainSlot f, plainSlot g] 0 1 20 x
              (disconnectNode c8copy 6) initialTls).map
          (fun r => collectedValues r.events) = some [f x, g x]
        ∧ (invoke [plainSlot f, plainSlot g] 4 5 20 x
              (disconnectNode c8copy 2) initialTls).map
          (fun r => collectedValues r.events) = some [f x, g x])
    ∧ isConnectedNode (disconnectNode c8copy 6) 2 = true
    ∧ isConnectedNode (disconnectNode c8copy 6) 3 = true
    ∧ isConnectedNode (disconnectNode c8copy 6) 6 = false
    ∧ isConnectedNode (disconnectNode c8copy 2) 6 = true
    ∧ isConnectedNode (disconnectNode c8copy 2) 7 = true
    ∧ isConnectedNode (disconnectNode c8copy 2) 2 = false := by
  refine ⟨?_, rfl, rfl, rfl, fun f g x => ⟨rfl, rfl, rfl, rfl⟩,
    rfl, rfl, rfl, rfl, rfl, rfl⟩
  intro heap hs ts fuel h' nh nt h
  unfold copySignal initSignal at h
  simp only [] at h
  cases hgh : getNode (heap ++ [headSentinel (heap.length + 1),
      tailSentinel heap.length]) hs with
  | none => rw [hgh] at h; simp at h
  | some hn =>
    rw [hgh] at h
    simp only [] at h
    cases hcl : copyLoop ts (heap.length + 1) fuel
        (heap ++ [headSentinel (heap.length + 1), tailSentinel heap.length]) hn.next with
    | none => rw [hcl] at h; simp at h
    | some h2 =>
      rw [hcl] at h
      simp only [] at h
      obtain ⟨rfl, rfl, rfl⟩ : h2 = h' ∧ heap.length = nh ∧ heap.length + 1 = nt := by
        simpa [Prod.ext_iff] using h
      refine ⟨rfl, rfl, ?_⟩
      intro i hi
      have hlen : (heap ++ [headSentinel (heap.length + 1),
          tailSentinel heap.length]).length = heap.length + 2 := by
        rw [List.length_append]
        rfl
      have htl : getNode (heap ++ [headSentinel (heap.length + 1),
          tailSentinel heap.length]) (heap.length + 1)
          = some (tailSentinel heap.length) := by
        unfold getNode
        rw [List.getElem?_append_right (by omega)]
        simp
      have hpre := copyLoop_preserve ts (heap.length + 1) heap.length fuel _ hn.next h2 hcl
        (Nat.le_succ _) (by rw [hlen]; omega)
        (by
          intro tn htn j hj
          rw [htl] at htn
          obtain rfl : tailSentinel heap.length = tn := by simpa using htn
          simp only [tailSentinel] at hj
          obtain rfl : heap.length = j := by simpa using hj
          refine ⟨Nat.le_refl _, by rw [hlen]; omega⟩)
        i hi
      rw [hpre]
      exact getNode_append_lt hi

/-- C8 witness: the untouched-source guarantee evaluated on the concrete
two-slot signal and its copy. -/
theorem c8_deep_copy_witness :
    copySignal heap2slots 0 1 20 = some (c8copy, 4, 5)
    ∧ (4 = heap2slots.length ∧ 5 = heap2slots.length + 1
        ∧ ∀ i, i < heap2slots.length → getNode c8copy i = getNode heap2slots i) :=
  ⟨rfl, c8_deep_copy.1 heap2slots 0 1 20 c8copy 4 5 rfl⟩

end Rocket
